import Mathlib

/-!
Verification of the core simulation logic of `long_walk.py` (repository
`savetz/aLongWalk`): the geodesic walk-advancement and direction-resolution
simulation.  Python floats are modelled as exact rationals; Python strings
appear either as Lean `String`s or as `List Char` where structural reasoning
is needed.  The external geodesic engine (the `geopy` library, together with
the transcendental forward-azimuth formula of `calculate_bearing`, whose
values are not rational-representable) is modelled abstractly as a
`Geometry` record of a distance function, a destination-projection function
and a bearing function; a concrete executable rational instance
(`planeGeometry`) is used for witnesses and counterexamples.

The file is organised as all definitions first, then all theorems.
-/

/-- Python's `%` operator on reals with a positive modulus: the result
takes the sign of the divisor, i.e. `pymod x y = x - y * ⌊x / y⌋`. -/
def pymod (x y : ℚ) : ℚ := x - y * ⌊x / y⌋

/-- Python's `int()` truncation toward zero on a rational. -/
def pytrunc (q : ℚ) : ℤ := if q < 0 then -⌊-q⌋ else ⌊q⌋

/-- The compass sector names, in the source order of `compass_sectors` in
`bearing_to_compass` (which coincides with the key order of the
`COMPASS_BEARINGS` dict). -/
def compass_sectors : List String :=
  [ "north", "north-northeast", "northeast", "east-northeast",
    "east", "east-southeast", "southeast", "south-southeast",
    "south", "south-southwest", "southwest", "west-southwest",
    "west", "west-northwest", "northwest", "north-northwest" ]

/-- The `COMPASS_BEARINGS` dict of `long_walk.py`: each of the 16 compass
names mapped to its bearing in degrees. -/
def COMPASS_BEARINGS : List (String × ℚ) :=
  [ ("north", 0), ("north-northeast", 22.5), ("northeast", 45),
    ("east-northeast", 67.5), ("east", 90), ("east-southeast", 112.5),
    ("southeast", 135), ("south-southeast", 157.5), ("south", 180),
    ("south-southwest", 202.5), ("southwest", 225),
    ("west-southwest", 247.5), ("west", 270), ("west-northwest", 292.5),
    ("northwest", 315), ("north-northwest", 337.5) ]

/-- Dictionary lookup `COMPASS_BEARINGS[direction]` (total here; the program
only ever looks up names produced by `bearing_to_compass`, which lie in the
dict). -/
def compassBearing (direction : String) : ℚ :=
  ((COMPASS_BEARINGS.lookup direction).getD 0)

/-- The sector index computed by `bearing_to_compass`:
`int((bearing + sector_size / 2) % 360 / sector_size)` with
`sector_size = 360 / 16 = 22.5`. -/
def sector_index (bearing : ℚ) : ℤ :=
  pytrunc (pymod (bearing + (360 / 16) / 2) 360 / (360 / 16))

/-- `bearing_to_compass` from `long_walk.py`: converts a bearing in degrees
to a compass direction by nearest-sector lookup.  The list access
`compass_sectors[sector_index]` is modelled with a junk default `""`;
`sector_index_nonneg` and `sector_index_lt` show the access is always in
bounds, so the default is never used. -/
def bearing_to_compass (bearing : ℚ) : String :=
  compass_sectors.getD (sector_index bearing).toNat ""

/-- The accuracy-probability selection from `generate_local_interaction`:
`percentage_remaining = distance_remaining / total_distance * 100` bucketed
by the if/elif chain of the source. -/
def accuracy_for (distance_remaining total_distance : ℚ) : ℚ :=
  if distance_remaining / total_distance * 100 > 75 then 0.3
  else if distance_remaining / total_distance * 100 > 50 then 0.5
  else if distance_remaining / total_distance * 100 > 25 then 0.65
  else 0.9

/-- The direction-deciding core of `generate_local_interaction`:
`correct_bearing` is the bearing computed by `calculate_bearing` towards the
destination, `accDraw` models the `random.random()` draw, and `pick` models
the index drawn by `random.choice` from the 15 remaining directions
(`list(COMPASS_BEARINGS.keys())` is in `compass_sectors` order, and
`.remove` deletes the first occurrence, as `List.erase` does).  Returns the
direction given by the local and the `is_correct` flag.  The narrative text
around them (name, occupation, demeanour) is a pure function of independent
draws and does not feed back into the walk state. -/
def generate_local_interaction (distance_remaining total_distance : ℚ)
    (correct_bearing : ℚ) (accDraw : ℚ) (pick : ℕ) : String × Bool :=
  let correct_direction := bearing_to_compass correct_bearing
  if accDraw < accuracy_for distance_remaining total_distance then
    (correct_direction, true)
  else
    let possible_directions := compass_sectors.erase correct_direction
    (possible_directions.getD pick "", false)

/-- Python `str.split(sep)` for a one-character separator, on strings as
character lists.  Splitting the empty string yields one empty part, as in
Python. -/
def pySplit (sep : Char) : List Char → List (List Char)
  | [] => [[]]
  | c :: rest =>
    match pySplit sep rest with
    | [] => [[c]]
    | h :: t => if c = sep then [] :: h :: t else (c :: h) :: t

/-- The whitespace characters stripped by Python `str.strip()` (the ASCII
ones; the occupation strings in play are ASCII). -/
def isPySpace (c : Char) : Bool :=
  c = ' ' || c = '\t' || c = '\n' || c = '\r' || c = '\x0b' || c = '\x0c'

/-- Python `str.strip()`: drop leading and trailing whitespace. -/
def pyStrip (s : List Char) : List Char :=
  ((s.dropWhile isPySpace).reverse.dropWhile isPySpace).reverse

/-- `fix_occupation` from `long_walk.py` on strings as character lists:
if the string contains a comma, split on commas, strip each part, reverse
the parts and join them with single spaces; otherwise return the string
unchanged. -/
def fix_occupation (occupation : List Char) : List Char :=
  if occupation.contains ',' then
    List.intercalate [' '] (((pySplit ',' occupation).map pyStrip).reverse)
  else occupation

/-- The `ARRIVAL_THRESHOLD` constant of `long_walk.py`, in miles. -/
def ARRIVAL_THRESHOLD : ℚ := 0.2

/-- The `DAILY_DISTANCE_RANGE` constant of `long_walk.py`, in miles. -/
def DAILY_DISTANCE_RANGE : ℚ × ℚ := (5, 9)

/-- The external geodesic engine.  `geodesic_miles` models geopy's
`geodesic(a, b).miles`, `dest_point` models
`distance(miles=d).destination(origin, bearing)` (used by
`calculate_next_point`), and `calculate_bearing` models the source's
transcendental forward-azimuth formula.  These are floating-point and
library computations whose exact values are not expressible in rational
arithmetic, so claims about the walk machinery are settled over an
arbitrary such record, plus the concrete rational instance
`planeGeometry` below for witnesses and counterexamples. -/
structure Geometry (Coord : Type) where
  geodesic_miles : Coord → Coord → ℚ
  dest_point : Coord → ℚ → ℚ → Coord
  calculate_bearing : Coord → Coord → ℚ

/-- `calculate_next_point` from `long_walk.py`: the next coordinate from
the current point, a bearing and a daily distance, delegated to the
geodesic engine. -/
def calculate_next_point {C : Type} (G : Geometry C) (current_point : C)
    (bearing daily_distance : ℚ) : C :=
  G.dest_point current_point bearing daily_distance

/-- The mutable per-day state of the simulation loop in `main`. -/
structure WalkState (Coord : Type) where
  current_coords : Coord
  day_count : ℤ
  distance_remaining : ℚ
  last_rest_day : ℤ
  days_without_progress : ℤ

/-- The random draws a single loop iteration can consume: the rest-day
`random.random()` draw, the `random.uniform(*DAILY_DISTANCE_RANGE)` daily
distance, the direction-accuracy `random.random()` draw, and the index of
the `random.choice` among the 15 incorrect directions. -/
structure DayDraws where
  restDraw : ℚ
  dailyDraw : ℚ
  accDraw : ℚ
  pick : ℕ

/-- One day's block appended to the novel, abstracted to its
state-derived observables: a rest-day entry records the day number and the
coordinate at which the location lookup happens; a travel-day entry records
the day number, the new coordinate (where the location lookup happens), the
direction given by the local, the `is_correct` flag and the distance
covered.  The surrounding narrative text is a function of these values, the
fixed configuration and further independent draws. -/
inductive Entry (Coord : Type) where
  | rest (day : ℤ) (location : Coord)
  | travel (day : ℤ) (location : Coord) (direction : String)
      (is_correct : Bool) (distance_covered : ℚ)

/-- The travel-day branch of the loop body in `main` (the `else` branch):
draw a daily distance, ask a local for the direction, clamp the daily
distance to the remaining distance when arrival is possible and the
direction is correct, project the next point along the given direction's
bearing, recompute the remaining distance and update the
`days_without_progress` counter. -/
def travel_step {C : Type} (G : Geometry C) (end_coords : C)
    (total_distance : ℚ) (s : WalkState C) (d : DayDraws) :
    WalkState C × Entry C :=
  let daily_distance := d.dailyDraw
  let given := generate_local_interaction s.distance_remaining total_distance
    (G.calculate_bearing s.current_coords end_coords) d.accDraw d.pick
  let direction_given := given.1
  let is_correct_direction := given.2
  let daily_distance :=
    if s.distance_remaining ≤ daily_distance ∧ is_correct_direction = true then
      s.distance_remaining
    else daily_distance
  let bearing := compassBearing direction_given
  let next_coords := calculate_next_point G s.current_coords bearing daily_distance
  let new_remaining := G.geodesic_miles next_coords end_coords
  let dwp :=
    if s.distance_remaining ≤ new_remaining then s.days_without_progress + 1
    else 0
  ({ current_coords := next_coords,
     day_count := s.day_count + 1,
     distance_remaining := new_remaining,
     last_rest_day := s.last_rest_day,
     days_without_progress := dwp },
   Entry.travel s.day_count next_coords direction_given is_correct_direction
     daily_distance)

/-- One full iteration of the `while` loop in `main`: decide the rest day
(eligible only when `day_count > 7` and at least 7 days have passed since
the last rest day, and then only when the draw is below 0.1); a rest day
leaves the position untouched and records the day as the last rest day,
otherwise the travel branch runs.  `day_count` is incremented either way. -/
def loop_step {C : Type} (G : Geometry C) (end_coords : C)
    (total_distance : ℚ) (s : WalkState C) (d : DayDraws) :
    WalkState C × Entry C :=
  if s.day_count > 7 ∧ s.day_count - s.last_rest_day ≥ 7 ∧ d.restDraw < 0.1 then
    ({ s with day_count := s.day_count + 1, last_rest_day := s.day_count },
      Entry.rest s.day_count s.current_coords)
  else
    travel_step G end_coords total_distance s d

/-- The initial `WalkState` of `main`: at the start coordinates, day 1,
the full geodesic distance remaining, no rest day yet, no days without
progress. -/
def init_state {C : Type} (G : Geometry C) (start_coords end_coords : C) :
    WalkState C :=
  { current_coords := start_coords,
    day_count := 1,
    distance_remaining := G.geodesic_miles start_coords end_coords,
    last_rest_day := 0,
    days_without_progress := 0 }

/-- Run the `while distance_remaining > ARRIVAL_THRESHOLD` loop for at most
`n` iterations, collecting the entries appended to the novel; `draws k` is
the bundle of random draws available to the k-th executed iteration. -/
def run_loop {C : Type} (G : Geometry C) (end_coords : C)
    (total_distance : ℚ) (draws : ℕ → DayDraws) :
    ℕ → WalkState C → WalkState C × List (Entry C)
  | 0, s => (s, [])
  | n + 1, s =>
    if s.distance_remaining > ARRIVAL_THRESHOLD then
      let r := loop_step G end_coords total_distance s (draws 0)
      let rest := run_loop G end_coords total_distance
        (fun k => draws (k + 1)) n r.1
      (rest.1, r.2 :: rest.2)
    else (s, [])

/-- The walk state after at most `n` iterations of the loop (iterations
stop changing the state once `distance_remaining ≤ ARRIVAL_THRESHOLD`). -/
def state_after {C : Type} (G : Geometry C) (end_coords : C)
    (total_distance : ℚ) (draws : ℕ → DayDraws) :
    ℕ → WalkState C → WalkState C
  | 0, s => s
  | n + 1, s =>
    if s.distance_remaining > ARRIVAL_THRESHOLD then
      state_after G end_coords total_distance (fun k => draws (k + 1)) n
        (loop_step G end_coords total_distance s (draws 0)).1
    else s

/-- Termination of the `while` loop of `main` from state `s` under the
draw stream `draws`: after finitely many iterations the remaining distance
is at or below the arrival threshold. -/
def loop_terminates {C : Type} (G : Geometry C) (end_coords : C)
    (total_distance : ℚ) (draws : ℕ → DayDraws) (s : WalkState C) : Prop :=
  ∃ n, (state_after G end_coords total_distance draws n s).distance_remaining ≤
    ARRIVAL_THRESHOLD

/-- The walk state without its `days_without_progress` component, for
stating that the counter influences nothing else. -/
def state_except_progress {C : Type} (s : WalkState C) : C × ℤ × ℚ × ℤ :=
  (s.current_coords, s.day_count, s.distance_remaining, s.last_rest_day)

/-- Taxicab distance on the rational plane: the distance function of the
concrete `planeGeometry` instance. -/
def taxicab (p q : ℚ × ℚ) : ℚ := |q.1 - p.1| + |q.2 - p.2|

/-- Unit step vector (in the taxicab norm) of a bearing, measured
clockwise from north, for the concrete `planeGeometry` instance; at the
four cardinal bearings it is the expected axis vector, e.g.
`dirOf 0 = (0, 1)` and `dirOf 180 = (0, -1)`. -/
def dirOf (θ : ℚ) : ℚ × ℚ :=
  if θ < 90 then (θ / 90, (90 - θ) / 90)
  else if θ < 180 then ((180 - θ) / 90, (90 - θ) / 90)
  else if θ < 270 then ((180 - θ) / 90, (θ - 270) / 90)
  else ((θ - 360) / 90, (θ - 270) / 90)

/-- Bearing (clockwise from north, in degrees, piecewise-linear in the
taxicab unit vector) from `p` to `q` on the rational plane, inverse to
`dirOf` in the sense that travelling `taxicab p q` along
`dirOf (diamond_bearing p q)` reaches `q`. -/
def diamond_bearing (p q : ℚ × ℚ) : ℚ :=
  let dx := q.1 - p.1
  let dy := q.2 - p.2
  let t := |dx| + |dy|
  if 0 < dy ∧ 0 ≤ dx then 90 * dx / t
  else if dy ≤ 0 ∧ 0 < dx then 90 + 90 * (-dy) / t
  else if dy < 0 ∧ dx ≤ 0 then 180 + 90 * (-dx) / t
  else 270 + 90 * dy / t

/-- A concrete, fully executable geodesic engine on the rational plane:
taxicab distance, straight-line projection along `dirOf`, and
`diamond_bearing` as the bearing.  Projecting from `p` along the bearing of
`q` by the full distance reaches `q` exactly, which is the consistency the
spec demands of the engine ("same model used to compute remaining
distance, to avoid drift"). -/
def planeGeometry : Geometry (ℚ × ℚ) where
  geodesic_miles := taxicab
  dest_point := fun p θ dist =>
    (p.1 + dist * (dirOf θ).1, p.2 + dist * (dirOf θ).2)
  calculate_bearing := diamond_bearing

/-- A value representable as an IEEE binary64 floating-point number: an
integer significand of magnitude at most `2^53 - 1` scaled by a power of
two in the binary64 exponent range (subnormals included).  Used to model
the float arithmetic of `bearing_to_compass` where its rounding matters. -/
def isDouble (q : ℚ) : Prop :=
  ∃ m e : ℤ, |m| ≤ 2 ^ 53 - 1 ∧ -1074 ≤ e ∧ e ≤ 971 ∧ q = (m : ℚ) * (2:ℚ) ^ e

/-- Correct rounding to binary64: `r` is a representable value nearest to
the exact result `x` (ties unconstrained; no value in play here is a
tie).  Every IEEE arithmetic operation returns such an `r`. -/
def roundsTo (x r : ℚ) : Prop :=
  isDouble r ∧ ∀ s : ℚ, isDouble s → |r - x| ≤ |s - x|

/-- CPython's float `%` (`float_rem` in `floatobject.c`): `fmod(x, y)`,
which is exact (`x - y * trunc(x / y)` is always representable), followed,
when the nonzero remainder's sign differs from the divisor's, by one
float addition of the divisor — and that addition rounds, which is what
the exact-rational `pymod` cannot express.  Relational in the result. -/
def pymod_float (x y m : ℚ) : Prop :=
  if x - y * pytrunc (x / y) ≠ 0 ∧
      ¬ ((y < 0) ↔ (x - y * pytrunc (x / y) < 0)) then
    roundsTo (x - y * pytrunc (x / y) + y) m
  else m = x - y * pytrunc (x / y)

/-- The float evaluation of the body of `bearing_to_compass`:
`compass_sectors[int((bearing + sector_size / 2) % 360 / sector_size)]`
with every float operation correctly rounded (`sector_size = 360 / 16 =
22.5` and `sector_size / 2 = 11.25` are themselves exact in binary64), and
`none` standing for the `IndexError` of an out-of-range list access. -/
def bearing_to_compass_float (b : ℚ) (result : Option String) : Prop :=
  ∃ s m q : ℚ, roundsTo (b + 11.25) s ∧ pymod_float s 360 m ∧
    roundsTo (m / 22.5) q ∧
    result = compass_sectors.get? (pytrunc q).toNat

theorem pymod_nonneg (x : ℚ) {y : ℚ} (hy : 0 < y) : 0 ≤ pymod x y := by
  have h := Int.fract_nonneg (x / y)
  have hmul : 0 ≤ y * Int.fract (x / y) := mul_nonneg hy.le h
  have : pymod x y = y * Int.fract (x / y) := by
    unfold pymod Int.fract
    field_simp
  rw [this]; exact hmul

theorem pymod_lt (x : ℚ) {y : ℚ} (hy : 0 < y) : pymod x y < y := by
  have h := Int.fract_lt_one (x / y)
  have : pymod x y = y * Int.fract (x / y) := by
    unfold pymod Int.fract
    field_simp
  rw [this]
  calc y * Int.fract (x / y) < y * 1 := by
        exact mul_lt_mul_of_pos_left h hy
    _ = y := mul_one y

theorem pytrunc_nonneg {q : ℚ} (h : 0 ≤ q) : 0 ≤ pytrunc q := by
  unfold pytrunc
  rw [if_neg (not_lt.mpr h)]
  exact Int.floor_nonneg.mpr h

theorem pytrunc_lt_of_nonneg {q : ℚ} {n : ℤ} (h0 : 0 ≤ q) (h : q < n) :
    pytrunc q < n := by
  unfold pytrunc
  rw [if_neg (not_lt.mpr h0)]
  exact Int.floor_lt.mpr h

/-- The sector index is never negative, for any rational bearing. -/
theorem sector_index_nonneg (b : ℚ) : 0 ≤ sector_index b := by
  unfold sector_index
  have h360 : (0:ℚ) < 360 := by norm_num
  have hm := pymod_nonneg (b + (360 / 16) / 2) h360
  exact pytrunc_nonneg (by positivity)

/-- The sector index is always below 16, for any rational bearing. -/
theorem sector_index_lt (b : ℚ) : sector_index b < 16 := by
  unfold sector_index
  have h360 : (0:ℚ) < 360 := by norm_num
  have hm0 := pymod_nonneg (b + (360 / 16) / 2) h360
  have hm := pymod_lt (b + (360 / 16) / 2) h360
  have hq0 : (0:ℚ) ≤ pymod (b + (360 / 16) / 2) 360 / (360 / 16) := by positivity
  refine pytrunc_lt_of_nonneg hq0 ?_
  rw [div_lt_iff₀ (by norm_num : (0:ℚ) < 360 / 16)]
  push_cast
  linarith

theorem compass_sectors_length : compass_sectors.length = 16 := by decide

/-- The result of `bearing_to_compass` is always one of the 16 sector
names. -/
theorem bearing_to_compass_mem (b : ℚ) :
    bearing_to_compass b ∈ compass_sectors := by
  unfold bearing_to_compass
  have h1 := sector_index_nonneg b
  have h2 := sector_index_lt b
  have hlt : (sector_index b).toNat < compass_sectors.length := by
    rw [compass_sectors_length]
    omega
  rw [List.getD_eq_getElem _ _ hlt]
  exact List.getElem_mem hlt

/-- Helper: `pytrunc` agrees with the floor on nonnegative inputs. -/
theorem pytrunc_eq_floor {q : ℚ} (h : 0 ≤ q) : pytrunc q = ⌊q⌋ := by
  unfold pytrunc
  rw [if_neg (not_lt.mpr h)]

theorem compass_sectors_nodup : compass_sectors.Nodup := by decide

/-- Helper: erasing the correct direction from the 16 sectors leaves 15. -/
theorem erase_correct_length (b : ℚ) :
    (compass_sectors.erase (bearing_to_compass b)).length = 15 := by
  have h := List.length_erase_add_one (bearing_to_compass_mem b)
  rw [compass_sectors_length] at h
  omega

/-- Claim C3: for every bearing in `[0, 360)` the compass-label function
returns one of the 16 sector names; the index is nearest-sector rounding
(`⌊(b + 11.25) / 22.5⌋` below the wraparound point `348.75`, and sector 0,
north, at or above it); in particular both 359° and 1° map to north. -/
theorem claim_C3 (b : ℚ) (h0 : 0 ≤ b) (h1 : b < 360) :
    bearing_to_compass b ∈ compass_sectors ∧
    (b < 348.75 → sector_index b = ⌊(b + 11.25) / 22.5⌋) ∧
    (348.75 ≤ b → sector_index b = 0) ∧
    bearing_to_compass 359 = "north" ∧ bearing_to_compass 1 = "north" := by
  have hconst : ((360:ℚ) / 16) / 2 = 11.25 := by norm_num
  have hsec : ((360:ℚ) / 16) = 22.5 := by norm_num
  refine ⟨bearing_to_compass_mem b, ?_, ?_, ?_, ?_⟩
  · intro hb
    unfold sector_index pymod
    rw [hconst, hsec]
    have hfl : ⌊(b + 11.25) / 360⌋ = 0 := by
      rw [Int.floor_eq_zero_iff]
      constructor
      · positivity
      · rw [div_lt_one (by norm_num : (0:ℚ) < 360)]
        norm_num at hb ⊢
        linarith
    rw [hfl]
    push_cast
    rw [mul_zero, sub_zero]
    exact pytrunc_eq_floor (by positivity)
  · intro hb
    unfold sector_index pymod
    rw [hconst, hsec]
    have hfl : ⌊(b + 11.25) / 360⌋ = 1 := by
      rw [Int.floor_eq_iff]
      constructor
      · rw [le_div_iff₀ (by norm_num : (0:ℚ) < 360)]
        norm_num at hb ⊢
        linarith
      · rw [div_lt_iff₀ (by norm_num : (0:ℚ) < 360)]
        push_cast
        linarith
    rw [hfl]
    have hnum : b + 11.25 - 360 * (1:ℤ) = b - 348.75 := by push_cast; ring
    rw [hnum]
    have h0q : (0:ℚ) ≤ (b - 348.75) / 22.5 := by
      apply div_nonneg _ (by norm_num)
      norm_num at hb ⊢
      linarith
    rw [pytrunc_eq_floor h0q]
    rw [Int.floor_eq_zero_iff]
    refine ⟨h0q, ?_⟩
    rw [div_lt_one (by norm_num : (0:ℚ) < 22.5)]
    norm_num at hb ⊢
    linarith
  · have hidx : sector_index 359 = 0 := by
      unfold sector_index pymod pytrunc
      norm_num
    unfold bearing_to_compass
    rw [hidx]
    rfl
  · have hidx : sector_index 1 = 0 := by
      unfold sector_index pymod pytrunc
      norm_num
    unfold bearing_to_compass
    rw [hidx]
    rfl

/-- Witness for C3 at the bearing 123°. -/
theorem claim_C3_witness :
    (0:ℚ) ≤ 123 ∧ (123:ℚ) < 360 ∧ bearing_to_compass 123 ∈ compass_sectors :=
  ⟨by norm_num, by norm_num, (claim_C3 123 (by norm_num) (by norm_num)).1⟩

/-- Claim C4: the direction-accuracy model computes
`percent_remaining = remaining / total * 100` and selects the accuracy
probability by bucket: 0.30 above 75, 0.50 in (50, 75], 0.65 in (25, 50],
and 0.90 at or below 25, for every remaining and total with positive
total. -/
theorem claim_C4 (remaining total : ℚ) (htotal : 0 < total) :
    (remaining / total * 100 > 75 → accuracy_for remaining total = 0.3) ∧
    (50 < remaining / total * 100 ∧ remaining / total * 100 ≤ 75 →
      accuracy_for remaining total = 0.5) ∧
    (25 < remaining / total * 100 ∧ remaining / total * 100 ≤ 50 →
      accuracy_for remaining total = 0.65) ∧
    (remaining / total * 100 ≤ 25 → accuracy_for remaining total = 0.9) := by
  unfold accuracy_for
  refine ⟨fun h => ?_, fun h => ?_, fun h => ?_, fun h => ?_⟩
  · rw [if_pos h]
  · rw [if_neg (by linarith [h.2]), if_pos h.1]
  · rw [if_neg (by linarith [h.2]), if_neg (by linarith [h.2]), if_pos h.1]
  · rw [if_neg (by linarith), if_neg (by linarith), if_neg (by linarith)]

/-- Witness for C4 at remaining 80 of total 100 (80 percent left). -/
theorem claim_C4_witness :
    (0:ℚ) < 100 ∧ accuracy_for 80 100 = 0.3 :=
  ⟨by norm_num, (claim_C4 80 100 (by norm_num)).1 (by norm_num)⟩

/-- Claim C5: if the uniform draw is below the accuracy probability the
returned direction is the correct compass direction and `is_correct` is
true; otherwise the direction is drawn from the 15 remaining directions
excluding the correct one and `is_correct` is false.  Hence `is_correct`
holds exactly when the returned direction equals the correct direction. -/
theorem claim_C5 (remaining total b accDraw : ℚ) (pick : ℕ) (hpick : pick < 15) :
    ((generate_local_interaction remaining total b accDraw pick).2 = true ↔
      (generate_local_interaction remaining total b accDraw pick).1 =
        bearing_to_compass b) ∧
    (accDraw < accuracy_for remaining total →
      generate_local_interaction remaining total b accDraw pick =
        (bearing_to_compass b, true)) ∧
    (¬ accDraw < accuracy_for remaining total →
      (generate_local_interaction remaining total b accDraw pick).2 = false ∧
      (generate_local_interaction remaining total b accDraw pick).1 ∈
        compass_sectors.erase (bearing_to_compass b)) := by
  have hlen : pick < (compass_sectors.erase (bearing_to_compass b)).length := by
    rw [erase_correct_length]; exact hpick
  by_cases hacc : accDraw < accuracy_for remaining total
  · refine ⟨?_, fun _ => ?_, fun h => absurd hacc h⟩
    · unfold generate_local_interaction
      rw [if_pos hacc]
      simp
    · unfold generate_local_interaction
      rw [if_pos hacc]
  · have hmem : (compass_sectors.erase (bearing_to_compass b)).getD pick "" ∈
        compass_sectors.erase (bearing_to_compass b) := by
      rw [List.getD_eq_getElem _ _ hlen]
      exact List.getElem_mem hlen
    have hne : (compass_sectors.erase (bearing_to_compass b)).getD pick "" ≠
        bearing_to_compass b :=
      ((List.Nodup.mem_erase_iff compass_sectors_nodup).mp hmem).1
    refine ⟨?_, fun h => absurd h hacc, fun _ => ?_⟩
    · unfold generate_local_interaction
      rw [if_neg hacc]
      simpa using hne
    · unfold generate_local_interaction
      rw [if_neg hacc]
      exact ⟨rfl, hmem⟩

/-- Witness for C5: pick index 3, draw 1 (never below accuracy) at 80 of
100 remaining, correct bearing 0. -/
theorem claim_C5_witness :
    3 < 15 ∧
    ((generate_local_interaction 80 100 0 1 3).2 = true ↔
      (generate_local_interaction 80 100 0 1 3).1 = bearing_to_compass 0) :=
  ⟨by norm_num, (claim_C5 80 100 0 1 3 (by norm_num)).1⟩

theorem pySplit_ne_nil (sep : Char) (s : List Char) : pySplit sep s ≠ [] := by
  cases s with
  | nil => simp [pySplit]
  | cons c rest =>
    unfold pySplit
    cases h : pySplit sep rest with
    | nil => simp
    | cons h t =>
      by_cases hc : c = sep <;> simp [hc]

/-- Helper: splitting a comma-free prefix followed by a comma. -/
theorem pySplit_append_comma (a b : List Char) (ha : ',' ∉ a) :
    pySplit ',' (a ++ ',' :: b) = a :: pySplit ',' b := by
  induction a with
  | nil =>
    simp only [List.nil_append]
    cases h : pySplit ',' b with
    | nil => exact absurd h (pySplit_ne_nil ',' b)
    | cons x t => simp [pySplit, h]
  | cons c a ih =>
    have hc : c ≠ ',' := fun h => ha (h ▸ List.mem_cons_self c a)
    have ha2 : ',' ∉ a := fun h => ha (List.mem_cons_of_mem c h)
    simp only [List.cons_append]
    simp [pySplit, ih ha2, hc]

/-- Helper: splitting a comma-free string yields the single part. -/
theorem pySplit_no_comma (b : List Char) (hb : ',' ∉ b) :
    pySplit ',' b = [b] := by
  induction b with
  | nil => rfl
  | cons c b ih =>
    have hc : c ≠ ',' := fun h => hb (h ▸ List.mem_cons_self c b)
    have hb2 : ',' ∉ b := fun h => hb (List.mem_cons_of_mem c h)
    unfold pySplit
    rw [ih hb2]
    simp [hc]

/-- Claim C9: `fix_occupation` maps a comma-separated input
`specific, general` to `general specific` (parts stripped of whitespace,
order swapped, joined by one space) and returns comma-free inputs
unchanged; in particular `teacher, secondary` becomes `secondary teacher`
and `engineer` stays `engineer`. -/
theorem claim_C9 (s a b : List Char) (hs : ',' ∉ s) (ha : ',' ∉ a)
    (hb : ',' ∉ b) :
    fix_occupation s = s ∧
    fix_occupation (a ++ ',' :: b) = pyStrip b ++ ' ' :: pyStrip a ∧
    fix_occupation ("teacher, secondary".toList) = "secondary teacher".toList ∧
    fix_occupation ("engineer".toList) = "engineer".toList := by
  refine ⟨?_, ?_, by decide, by decide⟩
  · unfold fix_occupation
    rw [if_neg (by simpa using hs)]
  · unfold fix_occupation
    rw [if_pos (by simp)]
    rw [pySplit_append_comma a b ha, pySplit_no_comma b hb]
    simp [List.intercalate]

/-- Witness for C9 on the spec's two examples. -/
theorem claim_C9_witness :
    (',' ∉ ("engineer".toList)) ∧
    (',' ∉ ("teacher".toList)) ∧ (',' ∉ (" secondary".toList)) ∧
    fix_occupation ("teacher, secondary".toList) = "secondary teacher".toList :=
  ⟨by decide, by decide, by decide,
    (claim_C9 ("engineer".toList) ("teacher".toList) (" secondary".toList)
      (by decide) (by decide) (by decide)).2.2.1⟩

/-- Helper: every accuracy bucket is at least 0.3. -/
theorem accuracy_for_ge (r t : ℚ) : (0.3:ℚ) ≤ accuracy_for r t := by
  unfold accuracy_for
  split_ifs <;> norm_num

/-- Helper: every accuracy bucket is at most 0.9. -/
theorem accuracy_for_le (r t : ℚ) : accuracy_for r t ≤ (0.9:ℚ) := by
  unfold accuracy_for
  split_ifs <;> norm_num

/-- Helper: the branch of `generate_local_interaction` below the accuracy
threshold returns the correct direction. -/
theorem generate_correct (r t b accDraw : ℚ) (pick : ℕ)
    (h : accDraw < accuracy_for r t) :
    generate_local_interaction r t b accDraw pick =
      (bearing_to_compass b, true) := by
  unfold generate_local_interaction
  rw [if_pos h]

/-- Helper: the branch of `generate_local_interaction` at or above the
accuracy threshold picks among the other directions. -/
theorem generate_incorrect (r t b accDraw : ℚ) (pick : ℕ)
    (h : ¬ accDraw < accuracy_for r t) :
    generate_local_interaction r t b accDraw pick =
      ((compass_sectors.erase (bearing_to_compass b)).getD pick "", false) := by
  unfold generate_local_interaction
  rw [if_neg h]

/-- Claim C6: in any iteration of the simulation loop, a rest day occurs
exactly when `day_count > 7`, at least 7 days have elapsed since the last
rest day, and the uniform draw is below 0.1; and a rest day records the
current day as the last rest day. -/
theorem claim_C6 {C : Type} (G : Geometry C) (end_coords : C) (total : ℚ)
    (s : WalkState C) (d : DayDraws) :
    ((loop_step G end_coords total s d).2 =
        Entry.rest s.day_count s.current_coords ↔
      (s.day_count > 7 ∧ s.day_count - s.last_rest_day ≥ 7 ∧
        d.restDraw < 0.1)) ∧
    ((s.day_count > 7 ∧ s.day_count - s.last_rest_day ≥ 7 ∧
        d.restDraw < 0.1) →
      (loop_step G end_coords total s d).1.last_rest_day = s.day_count) := by
  by_cases h : s.day_count > 7 ∧ s.day_count - s.last_rest_day ≥ 7 ∧
      d.restDraw < 0.1
  · constructor
    · simp [loop_step, h]
    · intro _
      simp [loop_step, h]
  · constructor
    · simp [loop_step, h, travel_step]
    · intro hh
      exact absurd hh h

/-- Claim C7: a rest day performs no movement: the coordinate, the
remaining distance and the `days_without_progress` counter are unchanged;
only `day_count` (incremented) and `last_rest_day` (set to today) change,
and the appended entry is a rest entry at the unchanged coordinate. -/
theorem claim_C7 {C : Type} (G : Geometry C) (end_coords : C) (total : ℚ)
    (s : WalkState C) (d : DayDraws)
    (h : s.day_count > 7 ∧ s.day_count - s.last_rest_day ≥ 7 ∧
      d.restDraw < 0.1) :
    (loop_step G end_coords total s d).1.current_coords = s.current_coords ∧
    (loop_step G end_coords total s d).1.distance_remaining =
      s.distance_remaining ∧
    (loop_step G end_coords total s d).1.days_without_progress =
      s.days_without_progress ∧
    (loop_step G end_coords total s d).1.day_count = s.day_count + 1 ∧
    (loop_step G end_coords total s d).1.last_rest_day = s.day_count ∧
    (loop_step G end_coords total s d).2 =
      Entry.rest s.day_count s.current_coords := by
  simp [loop_step, h]

/-- Witness for C7: day 8, no rest day since the start, rest draw 0. -/
theorem claim_C7_witness :
    ((8:ℤ) > 7 ∧ (8:ℤ) - 0 ≥ 7 ∧ (0:ℚ) < 0.1) ∧
    (loop_step planeGeometry ((0:ℚ), (100:ℚ)) 100
        ⟨((0:ℚ), (0:ℚ)), 8, 100, 0, 0⟩ ⟨0, 5, 0, 0⟩).1.current_coords =
      ((0:ℚ), (0:ℚ)) ∧
    (loop_step planeGeometry ((0:ℚ), (100:ℚ)) 100
        ⟨((0:ℚ), (0:ℚ)), 8, 100, 0, 0⟩ ⟨0, 5, 0, 0⟩).1.distance_remaining =
      100 := by
  have h : (8:ℤ) > 7 ∧ (8:ℤ) - 0 ≥ 7 ∧ (0:ℚ) < 0.1 := by norm_num
  refine ⟨h, ?_, ?_⟩
  · exact (claim_C7 planeGeometry ((0:ℚ), (100:ℚ)) 100
      ⟨((0:ℚ), (0:ℚ)), 8, 100, 0, 0⟩ ⟨0, 5, 0, 0⟩ h).1
  · exact (claim_C7 planeGeometry ((0:ℚ), (100:ℚ)) 100
      ⟨((0:ℚ), (0:ℚ)), 8, 100, 0, 0⟩ ⟨0, 5, 0, 0⟩ h).2.1

/-- Helper: one loop iteration started from two states that agree except
on `days_without_progress` appends the same entry and yields states that
again agree except on `days_without_progress`. -/
theorem loop_step_proj {C : Type} (G : Geometry C) (end_coords : C)
    (total : ℚ) (s₁ s₂ : WalkState C) (d : DayDraws)
    (h : state_except_progress s₁ = state_except_progress s₂) :
    (loop_step G end_coords total s₁ d).2 =
      (loop_step G end_coords total s₂ d).2 ∧
    state_except_progress (loop_step G end_coords total s₁ d).1 =
      state_except_progress (loop_step G end_coords total s₂ d).1 := by
  obtain ⟨c₁, dc₁, dr₁, lr₁, w₁⟩ := s₁
  obtain ⟨c₂, dc₂, dr₂, lr₂, w₂⟩ := s₂
  simp only [state_except_progress, Prod.mk.injEq] at h
  obtain ⟨h1, h2, h3, h4⟩ := h
  subst h1; subst h2; subst h3; subst h4
  by_cases hrest : dc₁ > 7 ∧ dc₁ - lr₁ ≥ 7 ∧ d.restDraw < 0.1
  · simp [loop_step, hrest, state_except_progress]
  · simp [loop_step, hrest, travel_step, calculate_next_point,
      state_except_progress]

/-- Helper: the full loop run is insensitive to `days_without_progress`:
equal-except states produce identical novels and equal-except final
states. -/
theorem run_loop_proj {C : Type} (G : Geometry C) (end_coords : C)
    (total : ℚ) :
    ∀ (n : ℕ) (draws : ℕ → DayDraws) (s₁ s₂ : WalkState C),
      state_except_progress s₁ = state_except_progress s₂ →
      (run_loop G end_coords total draws n s₁).2 =
        (run_loop G end_coords total draws n s₂).2 ∧
      state_except_progress (run_loop G end_coords total draws n s₁).1 =
        state_except_progress (run_loop G end_coords total draws n s₂).1 := by
  intro n
  induction n with
  | zero =>
    intro draws s₁ s₂ h
    exact ⟨rfl, h⟩
  | succ n ih =>
    intro draws s₁ s₂ h
    have hdr : s₁.distance_remaining = s₂.distance_remaining :=
      congrArg (fun t => t.2.2.1) h
    by_cases hcond : s₁.distance_remaining > ARRIVAL_THRESHOLD
    · have hcond2 : s₂.distance_remaining > ARRIVAL_THRESHOLD := hdr ▸ hcond
      have hstep := loop_step_proj G end_coords total s₁ s₂ (draws 0) h
      have hrec := ih (fun k => draws (k + 1))
        (loop_step G end_coords total s₁ (draws 0)).1
        (loop_step G end_coords total s₂ (draws 0)).1 hstep.2
      constructor
      · show (run_loop G end_coords total draws (n + 1) s₁).2 =
          (run_loop G end_coords total draws (n + 1) s₂).2
        simp only [run_loop, if_pos hcond, if_pos hcond2]
        rw [hstep.1, hrec.1]
      · show state_except_progress
            (run_loop G end_coords total draws (n + 1) s₁).1 =
          state_except_progress (run_loop G end_coords total draws (n + 1) s₂).1
        simp only [run_loop, if_pos hcond, if_pos hcond2]
        exact hrec.2
    · have hcond2 : ¬ s₂.distance_remaining > ARRIVAL_THRESHOLD :=
        hdr ▸ hcond
      constructor
      · simp only [run_loop, if_neg hcond, if_neg hcond2]
      · simp only [run_loop, if_neg hcond, if_neg hcond2]
        exact h

/-- Claim C8: the `days_without_progress` counter is computed but never
consulted: two runs of the loop from states identical except for that
counter produce identical novels and identical values of every other state
variable, for every geometry, destination, draw stream and iteration
count. -/
theorem claim_C8 {C : Type} (G : Geometry C) (end_coords : C) (total : ℚ)
    (draws : ℕ → DayDraws) (n : ℕ) (s : WalkState C) (x y : ℤ) :
    (run_loop G end_coords total draws n
        { s with days_without_progress := x }).2 =
      (run_loop G end_coords total draws n
        { s with days_without_progress := y }).2 ∧
    state_except_progress (run_loop G end_coords total draws n
        { s with days_without_progress := x }).1 =
      state_except_progress (run_loop G end_coords total draws n
        { s with days_without_progress := y }).1 :=
  run_loop_proj G end_coords total n draws _ _ rfl

/-- Helper: bearings in `[0, 11.25)` fall in sector 0. -/
theorem sector_index_small {b : ℚ} (h0 : 0 ≤ b) (h1 : b < 11.25) :
    sector_index b = 0 := by
  unfold sector_index pymod
  have hc : ((360:ℚ) / 16) / 2 = 11.25 := by norm_num
  rw [hc]
  have hfl : ⌊(b + 11.25) / 360⌋ = 0 := by
    rw [Int.floor_eq_zero_iff]
    constructor
    · positivity
    · rw [div_lt_one (by norm_num : (0:ℚ) < 360)]
      norm_num at h1 ⊢
      linarith
  rw [hfl]
  push_cast
  rw [mul_zero, sub_zero]
  have h0q : (0:ℚ) ≤ (b + 11.25) / (360 / 16) := by positivity
  rw [pytrunc_eq_floor h0q]
  rw [Int.floor_eq_zero_iff]
  refine ⟨h0q, ?_⟩
  rw [div_lt_one (by norm_num : (0:ℚ) < 360 / 16)]
  norm_num at h1 ⊢
  linarith

/-- Helper: bearings in `[0, 11.25)` label as north. -/
theorem bearing_to_compass_small {b : ℚ} (h0 : 0 ≤ b) (h1 : b < 11.25) :
    bearing_to_compass b = "north" := by
  unfold bearing_to_compass
  rw [sector_index_small h0 h1]
  rfl

theorem compassBearing_north : compassBearing "north" = 0 := by rfl

theorem compassBearing_south : compassBearing "south" = 180 := by rfl

/-- Helper: the 8th remaining direction after erasing north is south. -/
theorem erase_north_getD_seven :
    (compass_sectors.erase "north").getD 7 "" = "south" := by rfl

theorem dirOf_zero : dirOf 0 = (0, 1) := by norm_num [dirOf]

theorem dirOf_south : dirOf 180 = (0, -1) := by norm_num [dirOf]

/-- Helper: the diamond bearing straight up (due north) is 0. -/
theorem diamond_bearing_north {y q : ℚ} (h : y < q) :
    diamond_bearing (0, y) (0, q) = 0 := by
  have hdy : (0:ℚ) < q - y := by linarith
  simp [diamond_bearing, hdy]

/-- Claim C1 (amended): on a travel day with the remaining distance at most
the drawn daily distance and a correct direction given, the daily distance
is clamped to exactly the remaining distance; and provided the compass
bearing of the given direction coincides with the exact bearing to the
destination and the engine projects without drift, the next coordinate is
the destination itself, within the arrival threshold. -/
theorem claim_C1 {C : Type} (G : Geometry C) (end_coords : C) (total : ℚ)
    (s : WalkState C) (d : DayDraws)
    (hrem : s.distance_remaining = G.geodesic_miles s.current_coords end_coords)
    (hle : s.distance_remaining ≤ d.dailyDraw)
    (hcorrect : d.accDraw < accuracy_for s.distance_remaining total)
    (hquant : compassBearing (bearing_to_compass
        (G.calculate_bearing s.current_coords end_coords)) =
      G.calculate_bearing s.current_coords end_coords)
    (hconsist : G.dest_point s.current_coords
        (G.calculate_bearing s.current_coords end_coords)
        (G.geodesic_miles s.current_coords end_coords) = end_coords)
    (hself : G.geodesic_miles end_coords end_coords = 0) :
    (travel_step G end_coords total s d).2 =
      Entry.travel s.day_count end_coords
        (bearing_to_compass (G.calculate_bearing s.current_coords end_coords))
        true s.distance_remaining ∧
    (travel_step G end_coords total s d).1.current_coords = end_coords ∧
    (travel_step G end_coords total s d).1.distance_remaining ≤
      ARRIVAL_THRESHOLD := by
  have hgen := generate_correct s.distance_remaining total
    (G.calculate_bearing s.current_coords end_coords) d.accDraw d.pick hcorrect
  rw [← hrem] at hconsist
  have hnext : calculate_next_point G s.current_coords
      (compassBearing (bearing_to_compass
        (G.calculate_bearing s.current_coords end_coords)))
      s.distance_remaining = end_coords := by
    rw [calculate_next_point, hquant, hconsist]
  simp only [travel_step, hgen, and_true]
  rw [if_pos hle]
  rw [hnext, hself]
  refine ⟨rfl, rfl, ?_⟩
  norm_num [ARRIVAL_THRESHOLD]

/-- Witness for C1: on the rational plane, 7 miles due north of the
destination with an 8-mile draw and a correct answer, the walker arrives
exactly. -/
theorem claim_C1_witness :
    ((7:ℚ) = planeGeometry.geodesic_miles ((0:ℚ), (0:ℚ)) ((0:ℚ), (7:ℚ))) ∧
    ((7:ℚ) ≤ 8) ∧
    ((0:ℚ) < accuracy_for 7 7) ∧
    (travel_step planeGeometry ((0:ℚ), (7:ℚ)) 7
        ⟨((0:ℚ), (0:ℚ)), 1, 7, 0, 0⟩ ⟨1, 8, 0, 0⟩).1.current_coords =
      ((0:ℚ), (7:ℚ)) ∧
    (travel_step planeGeometry ((0:ℚ), (7:ℚ)) 7
        ⟨((0:ℚ), (0:ℚ)), 1, 7, 0, 0⟩ ⟨1, 8, 0, 0⟩).1.distance_remaining ≤
      ARRIVAL_THRESHOLD := by
  have hb : planeGeometry.calculate_bearing ((0:ℚ), (0:ℚ)) ((0:ℚ), (7:ℚ)) = 0 :=
    diamond_bearing_north (by norm_num)
  have hrem : ((7:ℚ) = planeGeometry.geodesic_miles ((0:ℚ), (0:ℚ))
      ((0:ℚ), (7:ℚ))) := by
    show (7:ℚ) = taxicab ((0:ℚ), (0:ℚ)) ((0:ℚ), (7:ℚ))
    norm_num [taxicab]
  have hacc : (0:ℚ) < accuracy_for 7 7 :=
    lt_of_lt_of_le (by norm_num) (accuracy_for_ge 7 7)
  have hquant : compassBearing (bearing_to_compass
      (planeGeometry.calculate_bearing ((0:ℚ), (0:ℚ)) ((0:ℚ), (7:ℚ)))) =
      planeGeometry.calculate_bearing ((0:ℚ), (0:ℚ)) ((0:ℚ), (7:ℚ)) := by
    rw [hb, bearing_to_compass_small (by norm_num) (by norm_num),
      compassBearing_north]
  have hconsist : planeGeometry.dest_point ((0:ℚ), (0:ℚ))
      (planeGeometry.calculate_bearing ((0:ℚ), (0:ℚ)) ((0:ℚ), (7:ℚ)))
      (planeGeometry.geodesic_miles ((0:ℚ), (0:ℚ)) ((0:ℚ), (7:ℚ))) =
      ((0:ℚ), (7:ℚ)) := by
    rw [hb, ← hrem]
    show ((0:ℚ) + 7 * (dirOf 0).1, (0:ℚ) + 7 * (dirOf 0).2) = ((0:ℚ), (7:ℚ))
    rw [dirOf_zero]
    norm_num
  have hself : planeGeometry.geodesic_miles ((0:ℚ), (7:ℚ)) ((0:ℚ), (7:ℚ)) = 0 := by
    show taxicab ((0:ℚ), (7:ℚ)) ((0:ℚ), (7:ℚ)) = 0
    norm_num [taxicab]
  have h := claim_C1 planeGeometry ((0:ℚ), (7:ℚ)) 7
    ⟨((0:ℚ), (0:ℚ)), 1, 7, 0, 0⟩ ⟨1, 8, 0, 0⟩ hrem (by norm_num) hacc
    hquant hconsist hself
  exact ⟨hrem, by norm_num, hacc, h.2.1, h.2.2⟩

/-- Counterexample to C1 as stated: on the rational plane, 8 miles from a
destination whose exact bearing is 9° (compass-quantized to north), with a
drawn distance of 8.5 and a correct answer, the daily distance is clamped
to exactly 8 and the walker travels due north, yet lands 1.6 miles from
the destination, well beyond the 0.2-mile arrival threshold: the compass
quantization of the bearing breaks the exact-arrival property. -/
theorem claim_C1_counterexample :
    ((8:ℚ) = planeGeometry.geodesic_miles ((0:ℚ), (0:ℚ))
      ((4/5:ℚ), (36/5:ℚ))) ∧
    ((8:ℚ) ≤ 17/2) ∧
    (travel_step planeGeometry ((4/5:ℚ), (36/5:ℚ)) 8
        ⟨((0:ℚ), (0:ℚ)), 1, 8, 0, 0⟩ ⟨1, 17/2, 0, 0⟩).2 =
      Entry.travel 1 ((0:ℚ), (8:ℚ)) "north" true 8 ∧
    ARRIVAL_THRESHOLD <
      (travel_step planeGeometry ((4/5:ℚ), (36/5:ℚ)) 8
        ⟨((0:ℚ), (0:ℚ)), 1, 8, 0, 0⟩ ⟨1, 17/2, 0, 0⟩).1.distance_remaining := by
  have hb : planeGeometry.calculate_bearing ((0:ℚ), (0:ℚ))
      ((4/5:ℚ), (36/5:ℚ)) = 9 := by
    show diamond_bearing ((0:ℚ), (0:ℚ)) ((4/5:ℚ), (36/5:ℚ)) = 9
    unfold diamond_bearing
    norm_num
    rw [abs_of_nonneg (by norm_num : (0:ℚ) ≤ 4/5),
      abs_of_nonneg (by norm_num : (0:ℚ) ≤ 36/5)]
    norm_num
  have hbtc : bearing_to_compass 9 = "north" :=
    bearing_to_compass_small (by norm_num) (by norm_num)
  have hacc : (0:ℚ) < accuracy_for 8 8 :=
    lt_of_lt_of_le (by norm_num) (accuracy_for_ge 8 8)
  have hgen := generate_correct 8 8
    (planeGeometry.calculate_bearing ((0:ℚ), (0:ℚ)) ((4/5:ℚ), (36/5:ℚ))) 0 0
    hacc
  rw [hb, hbtc] at hgen
  constructor
  · show (8:ℚ) = taxicab ((0:ℚ), (0:ℚ)) ((4/5:ℚ), (36/5:ℚ))
    norm_num [taxicab]
    rw [abs_of_nonneg (by norm_num : (0:ℚ) ≤ 4/5),
      abs_of_nonneg (by norm_num : (0:ℚ) ≤ 36/5)]
    norm_num
  refine ⟨by norm_num, ?_, ?_⟩
  · simp only [travel_step, hb, hgen, and_true]
    rw [if_pos (by norm_num : (8:ℚ) ≤ 17/2)]
    rw [compassBearing_north]
    show Entry.travel 1
      (calculate_next_point planeGeometry ((0:ℚ), (0:ℚ)) 0 8) "north" true 8 =
      Entry.travel 1 ((0:ℚ), (8:ℚ)) "north" true 8
    rw [calculate_next_point]
    show Entry.travel 1 ((0:ℚ) + 8 * (dirOf 0).1, (0:ℚ) + 8 * (dirOf 0).2)
      "north" true 8 = Entry.travel 1 ((0:ℚ), (8:ℚ)) "north" true 8
    rw [dirOf_zero]
    norm_num
  · simp only [travel_step, hb, hgen, and_true]
    rw [if_pos (by norm_num : (8:ℚ) ≤ 17/2)]
    rw [compassBearing_north]
    show ARRIVAL_THRESHOLD < planeGeometry.geodesic_miles
      (calculate_next_point planeGeometry ((0:ℚ), (0:ℚ)) 0 8)
      ((4/5:ℚ), (36/5:ℚ))
    rw [calculate_next_point]
    show ARRIVAL_THRESHOLD < taxicab
      ((0:ℚ) + 8 * (dirOf 0).1, (0:ℚ) + 8 * (dirOf 0).2) ((4/5:ℚ), (36/5:ℚ))
    rw [dirOf_zero]
    norm_num [taxicab, ARRIVAL_THRESHOLD]
    rw [abs_of_nonneg (by norm_num : (0:ℚ) ≤ 4/5)]
    norm_num

theorem bearing_to_compass_zero : bearing_to_compass 0 = "north" :=
  bearing_to_compass_small (le_refl 0) (by norm_num)

/-- Helper: a travel day due north of the destination with a correct
answer and the remaining distance within the daily draw of 5: the clamp
fires and the walker arrives exactly. -/
theorem north_step_near (q y total : ℚ) (dc lr w : ℤ) (hy : y < q)
    (h5 : q - y ≤ 5) :
    loop_step planeGeometry ((0:ℚ), q) total ⟨((0:ℚ), y), dc, q - y, lr, w⟩
      ⟨1/2, 5, 0, 0⟩ =
    (⟨((0:ℚ), q), dc + 1, 0, lr, 0⟩,
      Entry.travel dc ((0:ℚ), q) "north" true (q - y)) := by
  have hrest : ¬ (dc > 7 ∧ dc - lr ≥ 7 ∧ (1/2:ℚ) < 0.1) := by
    rintro ⟨-, -, hx⟩
    norm_num at hx
  have hb : diamond_bearing ((0:ℚ), y) ((0:ℚ), q) = 0 := diamond_bearing_north hy
  have hacc : (0:ℚ) < accuracy_for (q - y) total :=
    lt_of_lt_of_le (by norm_num) (accuracy_for_ge _ _)
  have hgen := generate_correct (q - y) total 0 0 0 hacc
  rw [bearing_to_compass_zero] at hgen
  have hyq : y + (q - y) = q := by ring
  have hdwp : ¬ (q - y ≤ (0:ℚ)) := by linarith
  simp only [loop_step]
  rw [if_neg hrest]
  simp only [travel_step, calculate_next_point, planeGeometry]
  rw [hb, hgen]
  simp [h5, compassBearing_north, dirOf_zero, hyq, taxicab, hdwp]

/-- Helper: a travel day due north of the destination with a correct
answer and more than 5 miles remaining: the walker advances 5 miles
north. -/
theorem north_step_far (q y total : ℚ) (dc lr w : ℤ) (h5 : ¬ q - y ≤ 5) :
    loop_step planeGeometry ((0:ℚ), q) total ⟨((0:ℚ), y), dc, q - y, lr, w⟩
      ⟨1/2, 5, 0, 0⟩ =
    (⟨((0:ℚ), y + 5), dc + 1, q - (y + 5), lr, 0⟩,
      Entry.travel dc ((0:ℚ), y + 5) "north" true 5) := by
  have hy : y < q := by linarith [not_le.mp h5]
  have hrest : ¬ (dc > 7 ∧ dc - lr ≥ 7 ∧ (1/2:ℚ) < 0.1) := by
    rintro ⟨-, -, hx⟩
    norm_num at hx
  have hb : diamond_bearing ((0:ℚ), y) ((0:ℚ), q) = 0 := diamond_bearing_north hy
  have hacc : (0:ℚ) < accuracy_for (q - y) total :=
    lt_of_lt_of_le (by norm_num) (accuracy_for_ge _ _)
  have hgen := generate_correct (q - y) total 0 0 0 hacc
  rw [bearing_to_compass_zero] at hgen
  have habs : |q - (y + 5)| = q - (y + 5) :=
    abs_of_nonneg (by linarith [not_le.mp h5])
  have hdwp : ¬ (q - y ≤ q - (y + 5)) := by
    intro hx
    linarith
  simp only [loop_step]
  rw [if_neg hrest]
  simp only [travel_step, calculate_next_point, planeGeometry]
  rw [hb, hgen]
  simp [h5, compassBearing_north, dirOf_zero, taxicab, habs, hdwp]

/-- Helper: a travel day well away from the destination (due north of it)
where the local points south: the walker moves 5 miles south, away from
the destination, and `days_without_progress` increments. -/
theorem south_step_bad (y : ℚ) (dc lr w : ℤ) (hy : y ≤ 0) :
    loop_step planeGeometry ((0:ℚ), (100:ℚ)) 100
      ⟨((0:ℚ), y), dc, 100 - y, lr, w⟩ ⟨1/2, 5, 1/2, 7⟩ =
    (⟨((0:ℚ), y - 5), dc + 1, 100 - (y - 5), lr, w + 1⟩,
      Entry.travel dc ((0:ℚ), y - 5) "south" false 5) := by
  have hrest : ¬ (dc > 7 ∧ dc - lr ≥ 7 ∧ (1/2:ℚ) < 0.1) := by
    rintro ⟨-, -, hx⟩
    norm_num at hx
  have hy100 : y < 100 := by linarith
  have hb : diamond_bearing ((0:ℚ), y) ((0:ℚ), (100:ℚ)) = 0 :=
    diamond_bearing_north hy100
  have hperc : (100 - y) / 100 * 100 = 100 - y :=
    div_mul_cancel₀ _ (by norm_num : (100:ℚ) ≠ 0)
  have hacc : accuracy_for (100 - y) 100 = 0.3 := by
    unfold accuracy_for
    rw [if_pos (by rw [hperc]; linarith)]
  have hnot : ¬ ((1/2:ℚ) < accuracy_for (100 - y) 100) := by
    rw [hacc]
    norm_num
  have hgen := generate_incorrect (100 - y) 100 0 (1/2) 7 hnot
  rw [bearing_to_compass_zero, erase_north_getD_seven] at hgen
  have habs : |(100:ℚ) - (y - 5)| = 100 - (y - 5) :=
    abs_of_nonneg (by linarith)
  have hdwp : (100 - y ≤ 100 - (y - 5)) := by linarith
  have harith : y + (-5:ℚ) = y - 5 := by ring
  simp only [loop_step]
  rw [if_neg hrest]
  simp only [travel_step, calculate_next_point, planeGeometry]
  rw [hb, hgen]
  simp [compassBearing_south, dirOf_south, taxicab, harith, habs, hdwp]

/-- Helper: from any point due north of the destination within
`5 * (m + 1)` miles, the loop with correct directions every day reaches
the arrival threshold in finitely many iterations. -/
theorem north_terminates (q total : ℚ) :
    ∀ (m : ℕ) (y : ℚ) (dc lr w : ℤ), 0 < q - y → q - y ≤ 5 * ((m:ℚ) + 1) →
    ∃ n, (state_after planeGeometry ((0:ℚ), q) total
        (fun _ => ⟨1/2, 5, 0, 0⟩) n
        ⟨((0:ℚ), y), dc, q - y, lr, w⟩).distance_remaining ≤
      ARRIVAL_THRESHOLD := by
  intro m
  induction m with
  | zero =>
    intro y dc lr w h0 h5
    rw [Nat.cast_zero] at h5
    by_cases hth : q - y ≤ ARRIVAL_THRESHOLD
    · exact ⟨0, hth⟩
    · have hgt : ARRIVAL_THRESHOLD < q - y := not_le.mp hth
      refine ⟨1, ?_⟩
      simp only [state_after, hgt, if_true, gt_iff_lt]
      rw [north_step_near q y total dc lr w (by linarith) (by linarith)]
      norm_num [ARRIVAL_THRESHOLD]
  | succ m ih =>
    intro y dc lr w h0 h5
    push_cast at h5
    by_cases h5' : q - y ≤ 5
    · by_cases hth : q - y ≤ ARRIVAL_THRESHOLD
      · exact ⟨0, hth⟩
      · have hgt : ARRIVAL_THRESHOLD < q - y := not_le.mp hth
        refine ⟨1, ?_⟩
        simp only [state_after, hgt, if_true, gt_iff_lt]
        rw [north_step_near q y total dc lr w (by linarith) h5']
        norm_num [ARRIVAL_THRESHOLD]
    · have hgt : ARRIVAL_THRESHOLD < q - y := by
        unfold ARRIVAL_THRESHOLD
        push_neg at h5'
        norm_num
        linarith
      obtain ⟨n, hn⟩ := ih (y + 5) (dc + 1) lr 0 (by linarith [not_le.mp h5'])
        (by push_cast; linarith)
      refine ⟨n + 1, ?_⟩
      simp only [state_after, hgt, if_true, gt_iff_lt]
      rw [north_step_far q y total dc lr w h5']
      exact hn

/-- Helper: under the adversarial draw stream (always-incorrect
directions, the local always pointing south), the remaining distance never
drops to the arrival threshold. -/
theorem bad_run_remaining (n : ℕ) :
    ∀ (y : ℚ) (dc lr w : ℤ), y ≤ 0 →
    ARRIVAL_THRESHOLD < (state_after planeGeometry ((0:ℚ), (100:ℚ)) 100
      (fun _ => ⟨1/2, 5, 1/2, 7⟩) n
      ⟨((0:ℚ), y), dc, 100 - y, lr, w⟩).distance_remaining := by
  induction n with
  | zero =>
    intro y dc lr w hy
    simp only [state_after]
    unfold ARRIVAL_THRESHOLD
    norm_num
    linarith
  | succ n ih =>
    intro y dc lr w hy
    have hgt : ARRIVAL_THRESHOLD < 100 - y := by
      unfold ARRIVAL_THRESHOLD
      norm_num
      linarith
    simp only [state_after, hgt, if_true, gt_iff_lt]
    rw [south_step_bad y dc lr w hy]
    exact ih (y - 5) (dc + 1) lr (w + 1) (by linarith)

/-- Claim C2 (amended): for a start due north of a destination more than
the arrival threshold away, the loop terminates in finitely many
iterations under draw sequences in which the local always answers
correctly (daily draws at the lower bound 5 of the range); it does not
terminate for every draw sequence (see the counterexample). -/
theorem claim_C2 (q total : ℚ) (hq : ARRIVAL_THRESHOLD < q) :
    loop_terminates planeGeometry ((0:ℚ), q) total
      (fun _ => ⟨1/2, 5, 0, 0⟩)
      (init_state planeGeometry ((0:ℚ), (0:ℚ)) ((0:ℚ), q)) := by
  have hq0 : (0:ℚ) < q := by
    have : (0:ℚ) < ARRIVAL_THRESHOLD := by unfold ARRIVAL_THRESHOLD; norm_num
    linarith
  have hinit : init_state planeGeometry ((0:ℚ), (0:ℚ)) ((0:ℚ), q) =
      ⟨((0:ℚ), (0:ℚ)), 1, q - 0, 0, 0⟩ := by
    unfold init_state
    simp [planeGeometry, taxicab, abs_of_nonneg hq0.le]
  unfold loop_terminates
  rw [hinit]
  have hceil : q / 5 ≤ ((⌈q / 5⌉₊ : ℕ) : ℚ) := Nat.le_ceil _
  have hbound : q - 0 ≤ 5 * (((⌈q / 5⌉₊ : ℕ) : ℚ) + 1) := by
    have h1 : q ≤ ((⌈q / 5⌉₊ : ℕ) : ℚ) * 5 := (div_le_iff₀ (by norm_num)).mp hceil
    linarith
  exact north_terminates q total ⌈q / 5⌉₊ 0 1 0 0 (by linarith) hbound

/-- Witness for C2 at a destination 100 miles due north. -/
theorem claim_C2_witness :
    ARRIVAL_THRESHOLD < (100:ℚ) ∧
    loop_terminates planeGeometry ((0:ℚ), (100:ℚ)) 100
      (fun _ => ⟨1/2, 5, 0, 0⟩)
      (init_state planeGeometry ((0:ℚ), (0:ℚ)) ((0:ℚ), (100:ℚ))) :=
  ⟨by unfold ARRIVAL_THRESHOLD; norm_num,
    claim_C2 100 100 (by unfold ARRIVAL_THRESHOLD; norm_num)⟩

/-- Counterexample to C2 as stated: a start/end pair 100 miles apart
(non-zero geodesic distance, daily range lower bound 5 above the
threshold 0.2) together with a draw sequence (the local always answers
incorrectly, pointing south) under which the loop never reaches the
arrival threshold: termination does not hold for every sequence of random
draws. -/
theorem claim_C2_counterexample :
    (0:ℚ) < planeGeometry.geodesic_miles ((0:ℚ), (0:ℚ)) ((0:ℚ), (100:ℚ)) ∧
    ARRIVAL_THRESHOLD < DAILY_DISTANCE_RANGE.1 ∧
    ¬ loop_terminates planeGeometry ((0:ℚ), (100:ℚ))
        (planeGeometry.geodesic_miles ((0:ℚ), (0:ℚ)) ((0:ℚ), (100:ℚ)))
        (fun _ => ⟨1/2, 5, 1/2, 7⟩)
        (init_state planeGeometry ((0:ℚ), (0:ℚ)) ((0:ℚ), (100:ℚ))) := by
  have hdist : planeGeometry.geodesic_miles ((0:ℚ), (0:ℚ)) ((0:ℚ), (100:ℚ)) =
      100 := by
    show taxicab ((0:ℚ), (0:ℚ)) ((0:ℚ), (100:ℚ)) = 100
    unfold taxicab
    norm_num
  have hinit : init_state planeGeometry ((0:ℚ), (0:ℚ)) ((0:ℚ), (100:ℚ)) =
      ⟨((0:ℚ), (0:ℚ)), 1, 100 - 0, 0, 0⟩ := by
    unfold init_state
    rw [hdist]
    norm_num
  refine ⟨by rw [hdist]; norm_num,
    by unfold ARRIVAL_THRESHOLD DAILY_DISTANCE_RANGE; norm_num, ?_⟩
  rw [hdist, hinit]
  unfold loop_terminates
  rintro ⟨n, hn⟩
  exact absurd hn (not_le.mpr (bad_run_remaining n 0 1 0 0 le_rfl))

theorem isDouble_zero : isDouble 0 :=
  ⟨0, 0, by norm_num, by norm_num, by norm_num, by norm_num⟩

theorem isDouble_360 : isDouble 360 :=
  ⟨360, 0, by norm_num, by norm_num, by norm_num, by norm_num⟩

theorem isDouble_16 : isDouble 16 :=
  ⟨16, 0, by norm_num, by norm_num, by norm_num, by norm_num⟩

/-- Helper: the predecessor of 16 among the doubles, `16 - 2^-49`. -/
theorem isDouble_pred16 : isDouble (16 - (2:ℚ)^(-49:ℤ)) :=
  ⟨2 ^ 53 - 1, -49, by norm_num, by norm_num, by norm_num,
    by push_cast; norm_num⟩

/-- Helper: a correctly rounded result of a representable value is that
value itself. -/
theorem roundsTo_self {x : ℚ} (h : isDouble x) : roundsTo x x :=
  ⟨h, fun s _ => by rw [sub_self, abs_zero]; exact abs_nonneg _⟩

/-- Helper: rounding a representable value is unique. -/
theorem roundsTo_eq_self {x r : ℚ} (hx : isDouble x) (h : roundsTo x r) :
    r = x := by
  have h0 := h.2 x hx
  rw [sub_self, abs_zero] at h0
  have heq : |r - x| = 0 := le_antisymm h0 (abs_nonneg _)
  exact sub_eq_zero.mp (abs_eq_zero.mp heq)

/-- Helper: every binary64 value in `[256, 512)` is an integer multiple of
`2^-44`, the spacing of doubles in that binade. -/
theorem isDouble_binade {s : ℚ} (hd : isDouble s) (h1 : 256 ≤ s)
    (h2 : s < 512) : ∃ k : ℤ, s = (k : ℚ) * (2:ℚ)^(-44:ℤ) := by
  obtain ⟨m, e, hm, he1, he2, rfl⟩ := hd
  by_cases hcase : -44 ≤ e
  · refine ⟨m * 2 ^ (e + 44).toNat, ?_⟩
    push_cast
    rw [mul_assoc]
    congr 1
    rw [← zpow_natCast (2:ℚ) (e + 44).toNat,
      ← zpow_add₀ (by norm_num : (2:ℚ) ≠ 0)]
    congr 1
    omega
  · exfalso
    push_neg at hcase
    have h2e : (2:ℚ)^(45:ℤ) ≤ (2:ℚ)^(-e) :=
      zpow_le_zpow_right₀ (by norm_num) (by omega)
    have hme : (m : ℚ) = (m : ℚ) * (2:ℚ)^e * (2:ℚ)^(-e) := by
      rw [mul_assoc, ← zpow_add₀ (by norm_num : (2:ℚ) ≠ 0)]
      simp
    have hsnn : (0:ℚ) ≤ (m : ℚ) * (2:ℚ)^e := by linarith
    have hbig : (2:ℚ)^(53:ℤ) ≤ (m : ℚ) := by
      rw [hme]
      have h53 : (2:ℚ)^(53:ℤ) = 256 * (2:ℚ)^(45:ℤ) := by norm_num
      rw [h53]
      exact mul_le_mul h1 h2e (by positivity) (by linarith)
    have hmle : (m : ℚ) ≤ ((2 ^ 53 - 1 : ℤ) : ℚ) := by
      exact_mod_cast (abs_le.mp hm).2
    have hconv : ((2 ^ 53 - 1 : ℤ) : ℚ) = (2:ℚ)^(53:ℤ) - 1 := by
      push_cast
      norm_num
    rw [hconv] at hmle
    linarith

/-- Helper: a binary64 value in `[256, 360)` is at most `360 - 2^-44`,
the predecessor of 360 among the doubles. -/
theorem isDouble_le_pred360 {s : ℚ} (hd : isDouble s) (h1 : 256 ≤ s)
    (h2 : s < 360) : s ≤ 360 - (2:ℚ)^(-44:ℤ) := by
  obtain ⟨k, rfl⟩ := isDouble_binade hd h1 (by linarith)
  have hpos : (0:ℚ) < (2:ℚ)^(-44:ℤ) := by positivity
  have hK : (360:ℚ) = ((360 * 2 ^ 44 : ℤ) : ℚ) * (2:ℚ)^(-44:ℤ) := by
    push_cast
    norm_num
  have hk : k < 360 * 2 ^ 44 := by
    rw [hK] at h2
    exact_mod_cast (mul_lt_mul_right hpos).mp h2
  have hk' : (k : ℚ) ≤ ((360 * 2 ^ 44 - 1 : ℤ) : ℚ) := by
    exact_mod_cast (by omega : k ≤ 360 * 2 ^ 44 - 1)
  calc (k : ℚ) * (2:ℚ)^(-44:ℤ)
      ≤ ((360 * 2 ^ 44 - 1 : ℤ) : ℚ) * (2:ℚ)^(-44:ℤ) :=
        mul_le_mul_of_nonneg_right hk' hpos.le
    _ = 360 - (2:ℚ)^(-44:ℤ) := by push_cast; norm_num

/-- Helper: the exact sum `360 - 2^-49` (one ulp-fraction below 360) is
correctly rounded to exactly 360: every other double is farther away. -/
theorem roundsTo_pred_360 : roundsTo (360 - (2:ℚ)^(-49:ℤ)) 360 := by
  have h49 : (0:ℚ) < (2:ℚ)^(-49:ℤ) := by positivity
  have h49le : (2:ℚ)^(-49:ℤ) ≤ 1 := by norm_num
  refine ⟨isDouble_360, fun s hs => ?_⟩
  have h360 : |(360:ℚ) - (360 - (2:ℚ)^(-49:ℤ))| = (2:ℚ)^(-49:ℤ) := by
    rw [show (360:ℚ) - (360 - (2:ℚ)^(-49:ℤ)) = (2:ℚ)^(-49:ℤ) from by ring]
    exact abs_of_nonneg h49.le
  rw [h360]
  rcases le_or_lt 360 s with hge | hlt
  · rw [abs_of_nonneg (by linarith)]
    linarith
  · rcases lt_or_le s 256 with hsm | hmid
    · rw [abs_of_nonpos (by linarith)]
      linarith
    · have hle := isDouble_le_pred360 hs hmid hlt
      have h44 : (2:ℚ)^(-44:ℤ) = 32 * (2:ℚ)^(-49:ℤ) := by norm_num
      rw [abs_of_nonpos (by linarith)]
      linarith

/-- Helper: 360 is the only correctly rounded result of `360 - 2^-49`. -/
theorem roundsTo_pred_360_unique {m : ℚ}
    (h : roundsTo (360 - (2:ℚ)^(-49:ℤ)) m) : m = 360 := by
  obtain ⟨hd, hmin⟩ := h
  have h49 : (0:ℚ) < (2:ℚ)^(-49:ℤ) := by positivity
  have h49le : (2:ℚ)^(-49:ℤ) ≤ 1 := by norm_num
  have hb := hmin 360 isDouble_360
  rw [show (360:ℚ) - (360 - (2:ℚ)^(-49:ℤ)) = (2:ℚ)^(-49:ℤ) from by ring,
    abs_of_nonneg h49.le] at hb
  have hub : m ≤ 360 := by
    have := (abs_le.mp hb).2
    linarith
  have hlb : 360 - 2 * (2:ℚ)^(-49:ℤ) ≤ m := by
    have := (abs_le.mp hb).1
    linarith
  rcases eq_or_lt_of_le hub with heq | hlt
  · exact heq
  · exfalso
    have hle := isDouble_le_pred360 hd (by linarith) hlt
    have h44 : (2:ℚ)^(-44:ℤ) = 32 * (2:ℚ)^(-49:ℤ) := by norm_num
    linarith

/-- Helper: the exact `fmod` remainder against 360 is above -360. -/
theorem fmod_gt_neg (x : ℚ) :
    -360 < x - 360 * (pytrunc (x / 360) : ℚ) := by
  by_cases hx : 0 ≤ x
  · rw [pytrunc_eq_floor (by positivity)]
    have h := pymod_nonneg x (show (0:ℚ) < 360 by norm_num)
    unfold pymod at h
    linarith
  · push_neg at hx
    have hneg : x / 360 < 0 := div_neg_of_neg_of_pos hx (by norm_num)
    unfold pytrunc
    rw [if_pos hneg]
    have h := pymod_lt (-x) (show (0:ℚ) < 360 by norm_num)
    unfold pymod at h
    rw [show -x / 360 = -(x / 360) from by ring] at h
    push_cast
    linarith

/-- Helper: the CPython float modulo against 360 is never negative. -/
theorem pymod_float_nonneg {x m : ℚ} (h : pymod_float x 360 m) : 0 ≤ m := by
  unfold pymod_float at h
  split_ifs at h with hc
  · obtain ⟨hne, hiff⟩ := hc
    have hrneg : x - 360 * (pytrunc (x / 360) : ℚ) < 0 := by
      by_contra hpos
      exact hiff (iff_of_false (by norm_num) hpos)
    have hgt := fmod_gt_neg x
    obtain ⟨hd, hmin⟩ := h
    have h0 := hmin 0 isDouble_zero
    rw [zero_sub, abs_neg,
      abs_of_nonneg (show (0:ℚ) ≤ x - 360 * (pytrunc (x / 360) : ℚ) + 360
        from by linarith)] at h0
    have := (abs_le.mp h0).1
    linarith
  · rcases not_and_or.mp hc with h1 | h2
    · rw [h, not_not.mp h1]
    · push_neg at h2
      have hge : ¬ (x - 360 * (pytrunc (x / 360) : ℚ) < 0) := fun hr =>
        absurd (h2.mpr hr) (by norm_num)
      rw [h]
      linarith [not_lt.mp hge]

/-- Claim C10 (amended): in exact arithmetic the sector index lies in
`[0, 16)` for every bearing, and under binary64 float semantics the index
is in `[0, 16)` and the sector-list access in bounds whenever the float
modulo result is at most `360 - 2^-44` (the largest double below 360) —
equivalently, whenever rounding does not carry it up to exactly 360.  At
the excluded inputs the access is out of bounds, see the
counterexample. -/
theorem claim_C10 (b s m q : ℚ)
    (hs : roundsTo (b + 11.25) s)
    (hm : pymod_float s 360 m)
    (hq : roundsTo (m / 22.5) q)
    (hmle : m ≤ 360 - (2:ℚ)^(-44:ℤ)) :
    (0 ≤ sector_index b ∧ sector_index b < 16 ∧
      bearing_to_compass b ∈ compass_sectors) ∧
    0 ≤ pytrunc q ∧ pytrunc q < 16 ∧
    ∃ name, compass_sectors.get? (pytrunc q).toNat = some name ∧
      name ∈ compass_sectors := by
  have hm0 : 0 ≤ m := pymod_float_nonneg hm
  have hv0 : (0:ℚ) ≤ m / 22.5 := by positivity
  obtain ⟨hqd, hqmin⟩ := hq
  have hq0 : 0 ≤ q := by
    have h0 := hqmin 0 isDouble_zero
    rw [zero_sub, abs_neg, abs_of_nonneg hv0] at h0
    have := (abs_le.mp h0).1
    linarith
  have hmle' : m ≤ 360 - 1 / 17592186044416 := by
    rw [show (2:ℚ)^(-44:ℤ) = 1 / 17592186044416 from by norm_num] at hmle
    exact hmle
  have hvle : m / 22.5 ≤ 16 - 1 / 562949953421312 := by
    rw [div_le_iff₀ (by norm_num : (0:ℚ) < 22.5)]
    have hprod : (16 - 1 / 562949953421312 : ℚ) * 22.5 =
        360 - 45 / 1125899906842624 := by norm_num
    rw [hprod]
    linarith
  have hmin := hqmin _ isDouble_pred16
  rw [show (2:ℚ)^(-49:ℤ) = 1 / 562949953421312 from by norm_num] at hmin
  have h16 : q ≤ 16 - 1 / 562949953421312 := by
    rw [abs_of_nonneg (show (0:ℚ) ≤ 16 - 1 / 562949953421312 - m / 22.5
      from by linarith)] at hmin
    have := (abs_le.mp hmin).2
    linarith
  have hqlt : q < 16 := by linarith
  have hidx0 : 0 ≤ pytrunc q := pytrunc_nonneg hq0
  have hidx16 : pytrunc q < 16 :=
    pytrunc_lt_of_nonneg hq0 (by exact_mod_cast hqlt)
  refine ⟨⟨sector_index_nonneg b, sector_index_lt b, bearing_to_compass_mem b⟩,
    hidx0, hidx16, ?_⟩
  have hlt : (pytrunc q).toNat < compass_sectors.length := by
    rw [compass_sectors_length]
    omega
  exact ⟨compass_sectors.get ⟨(pytrunc q).toNat, hlt⟩,
    List.get?_eq_get hlt, List.get_mem _ _ _⟩

/-- Witness for C10 at bearing 33.75: every float operation is exact
there (sum 45, modulo 45, quotient 2) and the index is 2. -/
theorem claim_C10_witness :
    roundsTo ((33.75:ℚ) + 11.25) 45 ∧ pymod_float 45 360 45 ∧
    roundsTo ((45:ℚ) / 22.5) 2 ∧ (45:ℚ) ≤ 360 - (2:ℚ)^(-44:ℤ) ∧
    0 ≤ pytrunc (2:ℚ) ∧ pytrunc (2:ℚ) < 16 := by
  have h45 : isDouble (45:ℚ) :=
    ⟨45, 0, by norm_num, by norm_num, by norm_num, by norm_num⟩
  have h2 : isDouble (2:ℚ) :=
    ⟨2, 0, by norm_num, by norm_num, by norm_num, by norm_num⟩
  have htr : pytrunc ((45:ℚ) / 360) = 0 := by
    unfold pytrunc
    norm_num
  have hs : roundsTo ((33.75:ℚ) + 11.25) 45 := by
    rw [show (33.75:ℚ) + 11.25 = 45 from by norm_num]
    exact roundsTo_self h45
  have hm : pymod_float 45 360 45 := by
    unfold pymod_float
    rw [htr]
    norm_num
  have hq : roundsTo ((45:ℚ) / 22.5) 2 := by
    rw [show (45:ℚ) / 22.5 = 2 from by norm_num]
    exact roundsTo_self h2
  have hle : (45:ℚ) ≤ 360 - (2:ℚ)^(-44:ℤ) := by norm_num
  have h := claim_C10 33.75 45 45 2 hs hm hq hle
  exact ⟨hs, hm, hq, hle, h.2.1, h.2.2.1⟩

/-- Counterexample to C10 as stated: the bearing `-(45/4 + 2^-49)`
(`-11.250000000000002`, a representable double) shifts to exactly
`-2^-49`; CPython's float `%` computes `fmod = -2^-49`, adds 360, and the
sum `360 - 2^-49` rounds to exactly `360.0`; the index is then
`int(360.0 / 22.5) = 16` and `compass_sectors[16]` is out of bounds
(an `IndexError`), so the float evaluation necessarily returns no sector
name: in-bounds totality fails for this negative input. -/
theorem claim_C10_counterexample :
    isDouble (-(45 / 4 + (2:ℚ)^(-49:ℤ))) ∧
    bearing_to_compass_float (-(45 / 4 + (2:ℚ)^(-49:ℤ))) none ∧
    ∀ r, bearing_to_compass_float (-(45 / 4 + (2:ℚ)^(-49:ℤ))) r →
      r = none := by
  have hb0 : isDouble (-(45 / 4 + (2:ℚ)^(-49:ℤ))) :=
    ⟨-(45 * 2 ^ 47 + 1), -49, by norm_num, by norm_num, by norm_num,
      by push_cast; norm_num⟩
  have hsd : isDouble (-((2:ℚ)^(-49:ℤ))) :=
    ⟨-1, -49, by norm_num, by norm_num, by norm_num, by push_cast; norm_num⟩
  have hsum : (-(45 / 4 + (2:ℚ)^(-49:ℤ))) + 11.25 = -((2:ℚ)^(-49:ℤ)) := by
    norm_num
  have ht : pytrunc (-((2:ℚ)^(-49:ℤ)) / 360) = 0 := by
    unfold pytrunc
    norm_num
  have hr360 : -((2:ℚ)^(-49:ℤ)) - 360 * ((0:ℤ) : ℚ) + 360 =
      360 - (2:ℚ)^(-49:ℤ) := by
    push_cast
    ring
  have hcond : (-((2:ℚ)^(-49:ℤ)) - 360 * ((0:ℤ) : ℚ) ≠ 0) ∧
      ¬ (((360:ℚ) < 0) ↔ (-((2:ℚ)^(-49:ℤ)) - 360 * ((0:ℤ) : ℚ) < 0)) := by
    constructor
    · norm_num
    · intro hiff
      have : (360:ℚ) < 0 := hiff.mpr (by norm_num)
      norm_num at this
  have h16tr : pytrunc (16:ℚ) = 16 := by
    unfold pytrunc
    norm_num
  refine ⟨hb0, ?_, ?_⟩
  · refine ⟨-((2:ℚ)^(-49:ℤ)), 360, 16, ?_, ?_, ?_, ?_⟩
    · rw [hsum]
      exact roundsTo_self hsd
    · unfold pymod_float
      rw [ht, if_pos hcond, hr360]
      exact roundsTo_pred_360
    · rw [show (360:ℚ) / 22.5 = 16 from by norm_num]
      exact roundsTo_self isDouble_16
    · rw [h16tr]
      rfl
  · rintro r ⟨s, m, q, hs, hm, hq, hr⟩
    rw [hsum] at hs
    have hseq : s = -((2:ℚ)^(-49:ℤ)) := roundsTo_eq_self hsd hs
    subst hseq
    unfold pymod_float at hm
    rw [ht, if_pos hcond, hr360] at hm
    have hmeq : m = 360 := roundsTo_pred_360_unique hm
    subst hmeq
    rw [show (360:ℚ) / 22.5 = 16 from by norm_num] at hq
    have hqeq : q = 16 := roundsTo_eq_self isDouble_16 hq
    subst hqeq
    rw [h16tr] at hr
    exact hr
